import Mathlib

/-!
# Verification of the agent-step engine and credit-gate retry logic

This file gives a shallow embedding of the core runtime pieces of the
repository and proves the ordering, pairing and retry properties stated in
its specification.

Embedded components:
* the Postgres retry classifier and the serializable-transaction wrapper
  (`packages/internal/src/db/transaction.ts`);
* the free-tier agent allowlist (`common/src/constants/free-agents.ts`);
* the per-step stream/tool dispatcher `processStream`
  (the agent-runtime stream parser module).

JavaScript values that the classifier inspects are embedded as `JsVal`.
Promises are embedded by an explicit chain state: deferred handler work is
modelled as completing at the next point where the promise chain is awaited
(an inline tool call, or the end-of-stream drain).  This preserves the order
of the recorded effects, which is what the theorems below are about.
-/

/-- A JavaScript value, as far as the error classifier inspects it:
`null`/`undefined`, primitives, and plain objects as field lists. -/
inductive JsVal where
  | vnull
  | vundef
  | vbool (b : Bool)
  | vnum (n : Int)
  | vstr (s : String)
  | vobj (fields : List (String × JsVal))
deriving Repr

/-- `RETRYABLE_PG_ERROR_CODES` from `db/transaction.ts`: Postgres error codes
that indicate transient failures worth retrying, with their names. -/
def RETRYABLE_PG_ERROR_CODES : List (String × String) :=
  [("40001", "serialization_failure"),
   ("40003", "statement_completion_unknown"),
   ("40P01", "deadlock_detected"),
   ("08000", "connection_exception"),
   ("08001", "sqlclient_unable_to_establish_sqlconnection"),
   ("08003", "connection_does_not_exist"),
   ("08004", "sqlserver_rejected_establishment_of_sqlconnection"),
   ("08006", "connection_failure"),
   ("08P01", "protocol_violation"),
   ("57014", "query_canceled"),
   ("57P01", "admin_shutdown"),
   ("57P02", "crash_shutdown"),
   ("57P03", "cannot_connect_now"),
   ("53000", "insufficient_resources"),
   ("53100", "disk_full"),
   ("53200", "out_of_memory"),
   ("53300", "too_many_connections")]

/-- The class-level fallback table from `getRetryableErrorDescription`:
two-character error classes considered retryable. -/
def retryableClasses : List (String × String) :=
  [("08", "connection_exception"),
   ("40", "transaction_rollback"),
   ("53", "insufficient_resources"),
   ("57", "operator_intervention")]

/-- `getRetryableErrorDescription` from `db/transaction.ts`.  Rejects
non-objects and non-string `code` fields; looks the code up in the exact
table, then falls back to a class-level match on the first two characters. -/
def getRetryableErrorDescription (error : JsVal) : Option String :=
  match error with
  | .vobj fields =>
    match fields.lookup "code" with
    | some (.vstr errorCode) =>
      match RETRYABLE_PG_ERROR_CODES.lookup errorCode with
      | some desc => some desc
      | none =>
        let errorClass := errorCode.take 2
        match retryableClasses.lookup errorClass with
        | some className => some (className ++ "_" ++ errorCode)
        | none => none
    | _ => none
  | _ => none

/-- `isRetryablePostgresError` from `db/transaction.ts`. -/
def isRetryablePostgresError (error : JsVal) : Bool :=
  (getRetryableErrorDescription error).isSome

/-- Modelled from the spec: `withRetry` (from the shared promise utilities,
not among the sources) runs the operation, and on an error accepted by the
retry predicate sleeps with exponential backoff and tries again, capped at
`maxRetries` total attempts; any other error propagates immediately.
`f i` is the outcome of attempt `i`; `fuel` is the number of attempts still
allowed, and the returned number counts the attempts performed. -/
def withRetryModel {A : Type} (f : Nat → Except JsVal A) (retryIf : JsVal → Bool) :
    Nat → Nat → Except JsVal A × Nat
  | i, 0 => (f i, i + 1)
  | i, Nat.succ fuel =>
    match f i with
    | .ok a => (.ok a, i + 1)
    | .error e =>
      if retryIf e ∧ 0 < fuel then withRetryModel f retryIf (i + 1) fuel
      else (.error e, i + 1)

/-- Outcome of `withSerializableTransaction`: the final result, the number of
times the transaction ran, and the isolation level requested on each run. -/
structure TxnResult (A : Type) where
  result : Except JsVal A
  attempts : Nat
  isolationLevels : List String
deriving Repr

/-- `withSerializableTransaction` from `db/transaction.ts`: runs the
transaction at serializable isolation through `withRetryModel` with
`maxRetries = 5` and `retryIf` the Postgres retry classifier.
`f i` models the outcome of the `i`-th call to `db.transaction`. -/
def withSerializableTransaction {A : Type} (f : Nat → Except JsVal A) : TxnResult A :=
  let r := withRetryModel f isRetryablePostgresError 0 5
  { result := r.1, attempts := r.2, isolationLevels := List.replicate r.2 "serializable" }

/-- `FREE_TIER_AGENTS` from `common/src/constants/free-agents.ts`. -/
def FREE_TIER_AGENTS : List String :=
  ["file-picker", "file-picker-max", "file-lister", "researcher-web", "researcher-docs"]

/-- Splitting a character list at every occurrence of a separator; the
building block for the modelled agent-id parsing. -/
def splitOnChar (sep : Char) : List Char → List (List Char)
  | [] => [[]]
  | c :: cs =>
    let rest := splitOnChar sep cs
    if c = sep then [] :: rest
    else
      match rest with
      | [] => [[c]]
      | r :: rs => (c :: r) :: rs

/-- Modelled from the spec: `parseAgentId` (`common/src/util/agent-id-parsing`,
not among the sources) parses an agent identifier of the form
`[publisher/]id[@version]` and yields its agent-id component, or nothing when
the identifier has no id component. -/
def parseAgentId (fullAgentId : String) : Option String :=
  let afterPublisher := (splitOnChar (Char.ofNat 47) fullAgentId.toList).getLastD []
  let agentId := (splitOnChar (Char.ofNat 64) afterPublisher).headD []
  if agentId.isEmpty then none else some (String.mk agentId)

/-- `isFreeAgent` from `common/src/constants/free-agents.ts`. -/
def isFreeAgent (fullAgentId : String) : Bool :=
  match parseAgentId fullAgentId with
  | some agentId => FREE_TIER_AGENTS.contains agentId
  | none => false

/-! ## The agent-step stream dispatcher (`processStream`)

The dispatcher is embedded as a deterministic interpreter over the stream
chunks that the tool-stream parser yields.  The JavaScript promise chain
`previousToolCallFinished` is embedded as an explicit `ChainState`; the
one-shot `streamDonePromise` that the chain initially points to corresponds
to the `initial` state, and the drain at end of stream resolves it and runs
every queued handler in chain order. -/

/-- A tool input: the parameter record parsed out of the stream. -/
def ToolInput := List (String × String)
deriving instance Repr, DecidableEq for ToolInput

/-- A conversation message.  `processStream` builds assistant messages one
part at a time (one message per text chunk, one per tool-call part), so each
message carries a single part. -/
inductive Message where
  | user (text : String)
  | assistantText (text : String)
  | assistantToolCall (toolCallId : Nat) (toolName : String) (input : ToolInput)
  | tool (toolCallId : Nat) (toolName : String) (output : String)
deriving Repr, DecidableEq

/-- A UI stream event observed by `onResponseChunk`.  `streamDoneMark` and
`commitMark` are model markers for the resolution of the stream-done
promise and for the final history rewrite. -/
inductive UiEvent where
  | textDelta (text : String)
  | reasoningDelta (text : String)
  | errorEvent (message : String)
  | toolCallEvent (toolCallId : Nat) (toolName : String)
  | toolResultEvent (toolCallId : Nat) (toolName : String)
  | streamDoneMark
  | commitMark
deriving Repr, DecidableEq

/-- A dispatched tool call: id assigned at parse time, plus the effective
tool name and input that the executor received. -/
structure ToolTask where
  toolCallId : Nat
  toolName : String
  input : ToolInput
deriving Repr, DecidableEq

/-- The promise chain `previousToolCallFinished`.
`initial`: still the unresolved `streamDonePromise` (nothing dispatched).
`resolved`: the chain head has settled (prior work ran inline).
`pendingFromStart ts`: the head of the queue awaits the stream-done
promise, so `ts` can only run at the end-of-stream drain.
`pendingReady ts`: the head is chained on an already settled promise, so
`ts` completes at the next await of the chain. -/
inductive ChainState where
  | initial
  | resolved
  | pendingFromStart (tasks : List ToolTask)
  | pendingReady (tasks : List ToolTask)
deriving Repr, DecidableEq

/-- Appending a new tool call to the promise chain: the call awaits the
captured previous handle and replaces `previousToolCallFinished`. -/
def ChainState.enqueue : ChainState → ToolTask → ChainState
  | .initial, t => .pendingFromStart [t]
  | .resolved, t => .pendingReady [t]
  | .pendingFromStart ts, t => .pendingFromStart (ts ++ [t])
  | .pendingReady ts, t => .pendingReady (ts ++ [t])

/-- The tool calls still queued on the chain. -/
def ChainState.queued : ChainState → List ToolTask
  | .initial => []
  | .resolved => []
  | .pendingFromStart ts => ts
  | .pendingReady ts => ts

/-- The environment a step runs in: the native tool catalogue, the custom
tool definitions from the file context, the template's spawnable agents, and
oracles for schema validation and handler outcomes. -/
structure Env where
  toolNames : List String
  customTools : List String
  spawnableAgents : List String
  validInput : String → ToolInput → Bool
  handler : String → ToolInput → String

/-- The per-step mutable state of `processStream` (its local variables). -/
structure PState where
  nextToolCallId : Nat
  toolCalls : List ToolTask
  toolCallsToAddToMessageHistory : List ToolTask
  toolResults : List Message
  toolResultsToAddToMessageHistory : List Message
  assistantMessages : List Message
  errorMessages : List Message
  hadToolCallError : Bool
  fullResponseChunks : List String
  chain : ChainState
  events : List UiEvent
deriving Repr

/-- The initial state of a step (the variable initializers). -/
def initState (fullResponse : String) : PState :=
  { nextToolCallId := 0
    toolCalls := []
    toolCallsToAddToMessageHistory := []
    toolResults := []
    toolResultsToAddToMessageHistory := []
    assistantMessages := []
    errorMessages := []
    hadToolCallError := false
    fullResponseChunks := [fullResponse]
    chain := .initial
    events := [] }

/-- The tool message recorded for a finished tool call. -/
def toolResultMessage (env : Env) (t : ToolTask) : Message :=
  .tool t.toolCallId t.toolName (env.handler t.toolName t.input)

/-- Running one tool call once its turn on the chain arrives: record the
tool call and its result into the telemetry and history buffers, then emit
the `tool_call` event followed by the `tool_result` event. -/
def runTask (env : Env) (s : PState) (t : ToolTask) : PState :=
  { s with
    toolCalls := s.toolCalls ++ [t]
    toolCallsToAddToMessageHistory := s.toolCallsToAddToMessageHistory ++ [t]
    toolResults := s.toolResults ++ [toolResultMessage env t]
    toolResultsToAddToMessageHistory :=
      s.toolResultsToAddToMessageHistory ++ [toolResultMessage env t]
    events := s.events ++ [.toolCallEvent t.toolCallId t.toolName,
                           .toolResultEvent t.toolCallId t.toolName] }

/-- Running a queue of tool calls in chain order. -/
def runTasks (env : Env) (s : PState) (ts : List ToolTask) : PState :=
  ts.foldl (runTask env) s

/-- The user-error text appended when a tool call fails before dispatch
(`createResponseHandler` in the stream-parser module). -/
def toolCallErrorText (message : String) : String :=
  "Error during tool call: " ++ message ++
    ". Please check the tool name and arguments and try again."

/-- Modelled from the spec: `withSystemTags` (`util/messages`, not among the
sources) wraps runtime-generated user-facing text in system tags. -/
def withSystemTags (text : String) : String :=
  "<system>" ++ text ++ "</system>"

/-- The response handler reaction to an `error` chunk: set
`hadToolCallError`, queue the user error message (appended after all tool
results at commit time), and forward the error event. -/
def recordToolCallError (message : String) (s : PState) : PState :=
  { s with
    hadToolCallError := true
    errorMessages := s.errorMessages ++ [.user (withSystemTags (toolCallErrorText message))]
    events := s.events ++ [.errorEvent message] }

/-- Whether the name is a native tool (`toolNames.includes(toolName)`). -/
def isNativeTool (env : Env) (toolName : String) : Bool :=
  env.toolNames.contains toolName

/-- Modelled from the spec: `tryTransformAgentToolCall` (tool-executor
module, not among the sources) rewrites a call whose name matches a
spawnable agent id into a `spawn_agents` call carrying the agent type. -/
def tryTransformAgentToolCall (env : Env) (toolName : String) (input : ToolInput) :
    Option (String × ToolInput) :=
  if env.spawnableAgents.contains toolName then
    some ("spawn_agents", ("agent_type", toolName) :: input)
  else none

/-- The effective (name, input) pair the executor receives, after the
spawnable-agent rewrite. -/
def effectiveCall (env : Env) (toolName : String) (input : ToolInput) : String × ToolInput :=
  if isNativeTool env toolName then (toolName, input)
  else
    match tryTransformAgentToolCall env toolName input with
    | some p => p
    | none => (toolName, input)

/-- Whether the dispatcher can resolve the tool at all: native, spawnable,
or defined as a custom tool. -/
def knownTool (env : Env) (toolName : String) : Bool :=
  isNativeTool env toolName || env.spawnableAgents.contains toolName ||
    env.customTools.contains toolName

/-- Whether a parsed call passes lookup and schema validation, so that the
executor actually enters it into the promise chain. -/
def dispatchAccepted (env : Env) (toolName : String) (input : ToolInput) : Bool :=
  knownTool env toolName &&
    env.validInput (effectiveCall env toolName input).1 (effectiveCall env toolName input).2

/-- Modelled from the spec: the error message the executor emits when a
call fails before dispatch (unknown tool, or schema validation failure). -/
def dispatchErrorMessage (env : Env) (toolName : String) (input : ToolInput) : String :=
  if knownTool env toolName then
    "Invalid parameters for " ++ (effectiveCall env toolName input).1
  else
    "Tool " ++ toolName ++ " not found"

/-- `onTagEnd` of `createToolExecutionCallback`, together with the executor
entry (modelled from the spec where the executor source is absent): abort
guard, tool-call id assignment, spawnable-agent rewrite, then either the
pre-dispatch error path (no tool call recorded, chain untouched) or entry
into the promise chain.  In XML mode the dispatch awaits the execution
before returning, which forces every queued ready task to complete first;
awaiting a chain whose head needs the still-unresolved stream-done promise
never returns, which the interpreter reports as `none`. -/
def onTagEnd (env : Env) (aborted : Bool) (isXmlMode : Bool)
    (toolName : String) (input : ToolInput) (s : PState) : Option PState :=
  if aborted then some s
  else
    let toolCallId := s.nextToolCallId
    let s := { s with nextToolCallId := s.nextToolCallId + 1 }
    if !dispatchAccepted env toolName input then
      some (recordToolCallError (dispatchErrorMessage env toolName input) s)
    else
      let t : ToolTask :=
        { toolCallId := toolCallId
          toolName := (effectiveCall env toolName input).1
          input := (effectiveCall env toolName input).2 }
      if isXmlMode then
        match s.chain with
        | .initial => some (runTask env { s with chain := .resolved } t)
        | .resolved => some (runTask env { s with chain := .resolved } t)
        | .pendingReady ts =>
          some (runTask env (runTasks env { s with chain := .resolved } ts) t)
        | .pendingFromStart _ => none
      else
        some { s with chain := s.chain.enqueue t }

/-- One chunk yielded by the tool-stream parser to the consumption loop. -/
inductive Chunk where
  | text (s : String)
  | reasoning (s : String)
  | errorChunk (message : String)
  | toolCallStructured (toolName : String) (input : ToolInput)
  | xmlToolCall (toolName : String) (input : ToolInput)
deriving Repr, DecidableEq

/-- Processing one chunk of the stream: text chunks extend the assistant
messages (skipping empty text) and the full response; reasoning is
forwarded; error chunks go through the error path; structured tool calls
dispatch without awaiting; XML tool calls dispatch in XML mode. -/
def stepChunk (env : Env) (aborted : Bool) (c : Chunk) (s : PState) : Option PState :=
  match c with
  | .text t =>
    some { s with
      assistantMessages :=
        s.assistantMessages ++ (if t = "" then [] else [.assistantText t])
      fullResponseChunks := s.fullResponseChunks ++ [t]
      events := s.events ++ [.textDelta t] }
  | .reasoning t => some { s with events := s.events ++ [.reasoningDelta t] }
  | .errorChunk m => some (recordToolCallError m s)
  | .toolCallStructured n i => onTagEnd env aborted false n i s
  | .xmlToolCall n i => onTagEnd env aborted true n i s

/-- The stream consumption loop.  `abortAt = some k` means the abort signal
fires once `k` chunks have been processed; the loop re-checks the signal at
the top of each iteration and breaks. -/
def runLoop (env : Env) : List Chunk → Option Nat → PState → Option PState
  | [], _, s => some s
  | c :: cs, ab, s =>
    if ab = some 0 then some s
    else do
      let s' ← stepChunk env false c s
      runLoop env cs (ab.map (· - 1)) s'

/-- Whether the abort signal has fired by the time the loop exits. -/
def abortedAtEnd (chunks : List Chunk) (abortAt : Option Nat) : Bool :=
  match abortAt with
  | some k => k ≤ chunks.length
  | none => false

/-- The result record `processStream` returns, together with the rewritten
message history and the observed UI events. -/
structure StreamResult where
  messageHistory : List Message
  assistantMessages : List Message
  toolCalls : List ToolTask
  toolCallsToAddToMessageHistory : List ToolTask
  toolResults : List Message
  toolResultsToAddToMessageHistory : List Message
  errorMessages : List Message
  hadToolCallError : Bool
  fullResponse : String
  events : List UiEvent
deriving Repr

/-- The assistant message recorded for a tool-call part. -/
def toolCallMessage (t : ToolTask) : Message :=
  .assistantToolCall t.toolCallId t.toolName t.input

/-- The finalization rewrite: the history becomes the pre-stream snapshot,
then the assistant text messages, then one assistant tool-call message per
recorded call, then the recorded tool results, then the user error
messages. -/
def commitHistory (snapshot : List Message) (s : PState) : List Message :=
  snapshot ++ s.assistantMessages ++
    s.toolCallsToAddToMessageHistory.map toolCallMessage ++
    s.toolResultsToAddToMessageHistory ++ s.errorMessages

/-- `processStream`: run the consumption loop; unless aborted, resolve the
stream-done promise and await the chain (draining every queued handler);
then rewrite the message history from the snapshot. -/
def processStream (env : Env) (snapshot : List Message) (fullResponse : String)
    (chunks : List Chunk) (abortAt : Option Nat) : Option StreamResult := do
  let s ← runLoop env chunks abortAt (initState fullResponse)
  let s :=
    if abortedAtEnd chunks abortAt then s
    else
      runTasks env { s with events := s.events ++ [.streamDoneMark], chain := .resolved }
        s.chain.queued
  let s := { s with events := s.events ++ [.commitMark] }
  some
    { messageHistory := commitHistory snapshot s
      assistantMessages := s.assistantMessages
      toolCalls := s.toolCalls
      toolCallsToAddToMessageHistory := s.toolCallsToAddToMessageHistory
      toolResults := s.toolResults
      toolResultsToAddToMessageHistory := s.toolResultsToAddToMessageHistory
      errorMessages := s.errorMessages
      hadToolCallError := s.hadToolCallError
      fullResponse := String.join s.fullResponseChunks
      events := s.events }

/-! ## Derived predicates used by the statements -/

/-- Whether a code string falls in one of the four retryable Postgres error
classes by its first two characters. -/
def retryableClassCode (c : String) : Bool :=
  c.take 2 == "08" || c.take 2 == "40" || c.take 2 == "53" || c.take 2 == "57"

/-- Whether a UI event is a tool-call or tool-result event. -/
def isToolEvent : UiEvent → Bool
  | .toolCallEvent _ _ => true
  | .toolResultEvent _ _ => true
  | _ => false

/-- The tool-call/tool-result subsequence of an event stream. -/
def toolEvents (evs : List UiEvent) : List UiEvent :=
  evs.filter isToolEvent

/-- Whether a UI event is an error event. -/
def isErrorEvent : UiEvent → Bool
  | .errorEvent _ => true
  | _ => false

/-- The error-event subsequence of an event stream. -/
def errorEvents (evs : List UiEvent) : List UiEvent :=
  evs.filter isErrorEvent

/-- The pair of UI events a finished tool call contributes. -/
def taskEvents (t : ToolTask) : List UiEvent :=
  [.toolCallEvent t.toolCallId t.toolName, .toolResultEvent t.toolCallId t.toolName]

/-- Invariant I-PAIR: every tool message is preceded by an assistant
tool-call part with the same id. -/
def IPair (ms : List Message) : Prop :=
  ∀ i (h : i < ms.length) id n out, ms.get ⟨i, h⟩ = Message.tool id n out →
    ∃ j, ∃ hj : j < ms.length, j < i ∧
      ∃ n' inp, ms.get ⟨j, hj⟩ = Message.assistantToolCall id n' inp

/-- A sample environment used to instantiate the theorems on concrete runs:
three native tools, one custom tool, one spawnable agent; an input is
invalid exactly when it carries a parameter named `bad`. -/
def sampleEnv : Env :=
  { toolNames := ["read_files", "end_turn", "spawn_agents"]
    customTools := ["delayed_custom_tool"]
    spawnableAgents := ["researcher"]
    validInput := fun _ input => (input.lookup "bad").isNone
    handler := fun toolName _ => "output-" ++ toolName }

/-- The step-state invariant maintained by the dispatcher: the history
buffers mirror the telemetry buffers, every recorded result is the handler
outcome of the matching recorded call in the same order, the tool events
are exactly the call/result pairs of the recorded calls in order, assistant
messages are text messages, and error messages are the wrapped user
errors. -/
structure StateOk (env : Env) (s : PState) : Prop where
  callsHist : s.toolCallsToAddToMessageHistory = s.toolCalls
  resultsHist : s.toolResultsToAddToMessageHistory = s.toolResults
  resultsForm : s.toolResults = s.toolCalls.map (toolResultMessage env)
  eventsForm : toolEvents s.events = s.toolCalls.flatMap taskEvents
  assistantForm : ∀ m ∈ s.assistantMessages, ∃ t, m = Message.assistantText t
  errorForm : ∀ m ∈ s.errorMessages,
    ∃ t, m = Message.user (withSystemTags (toolCallErrorText t))

/-- A default result record, used to name concrete runs in closed
statements. -/
def defaultStreamResult : StreamResult :=
  { messageHistory := []
    assistantMessages := []
    toolCalls := []
    toolCallsToAddToMessageHistory := []
    toolResults := []
    toolResultsToAddToMessageHistory := []
    errorMessages := []
    hadToolCallError := false
    fullResponse := ""
    events := [] }

/-- The result of a concrete `processStream` run, defaulting to the empty
record when the run is stuck. -/
def psOutput (env : Env) (snapshot : List Message) (fullResponse : String)
    (chunks : List Chunk) (abortAt : Option Nat) : StreamResult :=
  (processStream env snapshot fullResponse chunks abortAt).getD defaultStreamResult

/-! ## Theorems: the credit-gate retry classifier -/

lemma lookup_mem {α β : Type} [BEq α] [LawfulBEq α] (a : α) (b : β) :
    ∀ l : List (α × β), List.lookup a l = some b → (a, b) ∈ l := by
  intro l
  induction l with
  | nil => intro h; simp [List.lookup] at h
  | cons p l ih =>
    intro h
    obtain ⟨k, v⟩ := p
    by_cases hk : a == k
    · have ha : a = k := by simpa using hk
      subst ha
      simp [List.lookup] at h
      simp [h]
    · simp only [List.lookup, hk] at h
      exact List.mem_cons_of_mem _ (ih h)

lemma retryable_codes_in_classes :
    ∀ p ∈ RETRYABLE_PG_ERROR_CODES, retryableClassCode p.1 = true := by decide

lemma retryableClasses_lookup_isSome (x : String) :
    (retryableClasses.lookup x).isSome =
      (x == "08" || x == "40" || x == "53" || x == "57") := by
  simp only [retryableClasses, List.lookup]
  cases h08 : x == "08" <;> cases h40 : x == "40" <;>
    cases h53 : x == "53" <;> cases h57 : x == "57" <;> simp

lemma getRetryable_isSome_iff (e : JsVal) :
    (getRetryableErrorDescription e).isSome = true ↔
      ∃ fields c, e = .vobj fields ∧ fields.lookup "code" = some (.vstr c) ∧
        retryableClassCode c = true := by
  constructor
  · intro h
    cases e with
    | vobj fields =>
      refine ⟨fields, ?_⟩
      cases hcode : fields.lookup "code" with
      | none => simp only [getRetryableErrorDescription, hcode] at h; simp at h
      | some v =>
        cases v with
        | vstr c =>
          refine ⟨c, rfl, rfl, ?_⟩
          simp only [getRetryableErrorDescription, hcode] at h
          cases hexact : RETRYABLE_PG_ERROR_CODES.lookup c with
          | some d => exact retryable_codes_in_classes (c, d) (lookup_mem c d _ hexact)
          | none =>
            simp only [hexact] at h
            cases hcls : retryableClasses.lookup (c.take 2) with
            | none => simp only [hcls] at h; simp at h
            | some cls =>
              have hiso := retryableClasses_lookup_isSome (c.take 2)
              rw [hcls] at hiso
              simpa [retryableClassCode] using hiso.symm
        | vnull => simp only [getRetryableErrorDescription, hcode] at h; simp at h
        | vundef => simp only [getRetryableErrorDescription, hcode] at h; simp at h
        | vbool b => simp only [getRetryableErrorDescription, hcode] at h; simp at h
        | vnum n => simp only [getRetryableErrorDescription, hcode] at h; simp at h
        | vobj f => simp only [getRetryableErrorDescription, hcode] at h; simp at h
    | vnull => simp [getRetryableErrorDescription] at h
    | vundef => simp [getRetryableErrorDescription] at h
    | vbool b => simp [getRetryableErrorDescription] at h
    | vnum n => simp [getRetryableErrorDescription] at h
    | vstr s => simp [getRetryableErrorDescription] at h
  · rintro ⟨fields, c, rfl, hcode, hclass⟩
    simp only [getRetryableErrorDescription, hcode]
    cases hexact : RETRYABLE_PG_ERROR_CODES.lookup c with
    | some d => simp [hexact]
    | none =>
      have hsome : (retryableClasses.lookup (c.take 2)).isSome = true := by
        rw [retryableClasses_lookup_isSome]
        simpa [retryableClassCode] using hclass
      cases hcls : retryableClasses.lookup (c.take 2) with
      | none => rw [hcls] at hsome; simp at hsome
      | some cls => simp [hexact, hcls]

/-- C5: `getRetryableErrorDescription e` is non-null exactly when `e` is an
object whose `code` property is a string whose first two characters put it
in one of the classes 40, 08, 57, 53; explicitly listed codes map to their
specific names, unlisted codes in those classes map to the class-level
fallback name, and everything else yields null. -/
theorem getRetryableErrorDescription_class_spec (e : JsVal) :
    ((getRetryableErrorDescription e).isSome = true ↔
      ∃ fields c, e = JsVal.vobj fields ∧
        fields.lookup "code" = some (JsVal.vstr c) ∧ retryableClassCode c = true) ∧
    (∀ fields c d, e = JsVal.vobj fields →
      fields.lookup "code" = some (JsVal.vstr c) →
      RETRYABLE_PG_ERROR_CODES.lookup c = some d →
      getRetryableErrorDescription e = some d) ∧
    (∀ fields c cls, e = JsVal.vobj fields →
      fields.lookup "code" = some (JsVal.vstr c) →
      RETRYABLE_PG_ERROR_CODES.lookup c = none →
      retryableClasses.lookup (c.take 2) = some cls →
      getRetryableErrorDescription e = some (cls ++ "_" ++ c)) := by
  refine ⟨getRetryable_isSome_iff e, ?_, ?_⟩
  · rintro fields c d rfl hcode hexact
    simp [getRetryableErrorDescription, hcode, hexact]
  · rintro fields c cls rfl hcode hexact hcls
    simp [getRetryableErrorDescription, hcode, hexact, hcls]

/-- Witness for C5: the unlisted class-40 code 40002 is retryable with the
class-level fallback name, obtained by applying the theorem. -/
theorem getRetryableErrorDescription_class_spec_witness :
    (getRetryableErrorDescription
      (JsVal.vobj [("code", JsVal.vstr "40002")])).isSome = true ∧
    getRetryableErrorDescription (JsVal.vobj [("code", JsVal.vstr "40002")]) =
      some ("transaction_rollback" ++ "_" ++ "40002") :=
  ⟨(getRetryableErrorDescription_class_spec _).1.mpr
      ⟨[("code", JsVal.vstr "40002")], "40002", rfl, rfl, by decide⟩,
   (getRetryableErrorDescription_class_spec _).2.2
      [("code", JsVal.vstr "40002")] "40002" "transaction_rollback" rfl rfl rfl rfl⟩

/-- C10: the retry classifier inspects only the top-level `code` property.
Whatever value sits under `cause` (at any nesting depth), if the top-level
`code` is absent, non-string, or outside the retryable classes, the
description is null, the error counts as non-retryable, and the credit-gate
transaction wrapper runs the callback exactly once and propagates the
error. -/
theorem getRetryableErrorDescription_ignores_cause
    (fields : List (String × JsVal)) (causeVal : JsVal)
    (htop : ∀ c, fields.lookup "code" = some (JsVal.vstr c) →
      retryableClassCode c = false) :
    getRetryableErrorDescription (JsVal.vobj (("cause", causeVal) :: fields)) = none ∧
    isRetryablePostgresError (JsVal.vobj (("cause", causeVal) :: fields)) = false ∧
    ∀ (f : Nat → Except JsVal Nat),
      f 0 = Except.error (JsVal.vobj (("cause", causeVal) :: fields)) →
      (withSerializableTransaction f).attempts = 1 ∧
      (withSerializableTransaction f).result = f 0 := by
  have hlk : (("cause", causeVal) :: fields).lookup "code" = fields.lookup "code" := by
    simp [List.lookup]
  have hnone : getRetryableErrorDescription
      (JsVal.vobj (("cause", causeVal) :: fields)) = none := by
    cases hdesc : getRetryableErrorDescription
        (JsVal.vobj (("cause", causeVal) :: fields)) with
    | none => rfl
    | some d =>
      have hsome : (getRetryableErrorDescription
          (JsVal.vobj (("cause", causeVal) :: fields))).isSome = true := by
        rw [hdesc]; rfl
      obtain ⟨fields', c, heq, hcode, hclass⟩ := (getRetryable_isSome_iff _).1 hsome
      cases heq
      rw [hlk] at hcode
      rw [htop c hcode] at hclass
      cases hclass
  have hretry : isRetryablePostgresError
      (JsVal.vobj (("cause", causeVal) :: fields)) = false := by
    rw [isRetryablePostgresError, hnone]; rfl
  refine ⟨hnone, hretry, ?_⟩
  intro f hf
  have h1 : withRetryModel f isRetryablePostgresError 0 5 =
      (Except.error (JsVal.vobj (("cause", causeVal) :: fields)), 1) := by
    rw [withRetryModel, hf]
    simp [hretry]
  constructor
  · rw [withSerializableTransaction, h1]
  · rw [withSerializableTransaction, h1, hf]

/-- Witness for C10: an error whose serialization-failure code sits only
inside `cause` is classified non-retryable and tried exactly once, obtained
by applying the theorem. -/
theorem getRetryableErrorDescription_ignores_cause_witness :
    getRetryableErrorDescription
      (JsVal.vobj [("cause", JsVal.vobj [("code", JsVal.vstr "40001")])]) = none ∧
    (withSerializableTransaction
      (fun _ => Except.error
        (JsVal.vobj [("cause", JsVal.vobj [("code", JsVal.vstr "40001")])]) :
        Nat → Except JsVal Nat)).attempts = 1 :=
  ⟨(getRetryableErrorDescription_ignores_cause []
      (JsVal.vobj [("code", JsVal.vstr "40001")]) (by simp [List.lookup])).1,
   ((getRetryableErrorDescription_ignores_cause []
      (JsVal.vobj [("code", JsVal.vstr "40001")]) (by simp [List.lookup])).2.2
      _ rfl).1⟩

lemma withRetryModel_spec {A : Type} (f : Nat → Except JsVal A) (retryIf : JsVal → Bool) :
    ∀ (fuel i : Nat), 0 < fuel →
      i < (withRetryModel f retryIf i fuel).2 ∧
      (withRetryModel f retryIf i fuel).2 ≤ i + fuel ∧
      (withRetryModel f retryIf i fuel).1 = f ((withRetryModel f retryIf i fuel).2 - 1) ∧
      (∀ j, i ≤ j → j + 1 < (withRetryModel f retryIf i fuel).2 →
        ∃ e, f j = Except.error e ∧ retryIf e = true) ∧
      ((withRetryModel f retryIf i fuel).2 < i + fuel →
        (∃ a, f ((withRetryModel f retryIf i fuel).2 - 1) = Except.ok a) ∨
          ∃ e, f ((withRetryModel f retryIf i fuel).2 - 1) = Except.error e ∧
            retryIf e = false) := by
  intro fuel
  induction fuel with
  | zero => intro i h; omega
  | succ fuel ih =>
    intro i _
    cases hf : f i with
    | ok a =>
      have hr : withRetryModel f retryIf i (fuel + 1) = (Except.ok a, i + 1) := by
        rw [withRetryModel, hf]
      rw [hr]
      refine ⟨by omega, by omega, by simpa using hf.symm, ?_, ?_⟩
      · intro j hij hlt; omega
      · intro _; exact Or.inl ⟨a, by simpa using hf⟩
    | error e =>
      by_cases hcond : retryIf e = true ∧ 0 < fuel
      · have hr : withRetryModel f retryIf i (fuel + 1) =
            withRetryModel f retryIf (i + 1) fuel := by
          rw [withRetryModel, hf]
          exact if_pos hcond
        obtain ⟨h1, h2, h3, h4, h5⟩ := ih (i + 1) hcond.2
        rw [hr]
        refine ⟨by omega, by omega, h3, ?_, by intro hlt; exact h5 (by omega)⟩
        intro j hij hlt
        rcases Nat.eq_or_lt_of_le hij with rfl | hij'
        · exact ⟨e, hf, hcond.1⟩
        · exact h4 j (by omega) hlt
      · have hr : withRetryModel f retryIf i (fuel + 1) = (Except.error e, i + 1) := by
          rw [withRetryModel, hf]
          exact if_neg hcond
        rw [hr]
        refine ⟨by omega, by omega, by simpa using hf.symm, ?_, ?_⟩
        · intro j hij hlt; omega
        · intro hlt
          have hfuel : 0 < fuel := by omega
          have hret : retryIf e = false := by
            by_cases hb : retryIf e = true
            · exact absurd ⟨hb, hfuel⟩ hcond
            · simpa using hb
          exact Or.inr ⟨e, by simpa using hf, hret⟩

/-- C4: the serializable-transaction wrapper runs the callback at most 5
times, always at serializable isolation; a non-retryable first error is
propagated after exactly one attempt; persistent retryable errors stop
after 5 total attempts, rethrowing the last error; every attempt before the
last failed with a retryable error; and an early stop is a success or a
non-retryable error. -/
theorem withSerializableTransaction_retry_spec {A : Type} (f : Nat → Except JsVal A) :
    (1 ≤ (withSerializableTransaction f).attempts ∧
      (withSerializableTransaction f).attempts ≤ 5) ∧
    (withSerializableTransaction f).result =
      f ((withSerializableTransaction f).attempts - 1) ∧
    (∀ e, f 0 = Except.error e → isRetryablePostgresError e = false →
      (withSerializableTransaction f).attempts = 1 ∧
      (withSerializableTransaction f).result = Except.error e) ∧
    ((∀ i, i < 5 → ∃ e, f i = Except.error e ∧ isRetryablePostgresError e = true) →
      (withSerializableTransaction f).attempts = 5 ∧
      (withSerializableTransaction f).result = f 4) ∧
    (∀ j, j + 1 < (withSerializableTransaction f).attempts →
      ∃ e, f j = Except.error e ∧ isRetryablePostgresError e = true) ∧
    ((withSerializableTransaction f).attempts < 5 →
      (∃ a, (withSerializableTransaction f).result = Except.ok a) ∨
        ∃ e, (withSerializableTransaction f).result = Except.error e ∧
          isRetryablePostgresError e = false) ∧
    (withSerializableTransaction f).isolationLevels =
      List.replicate (withSerializableTransaction f).attempts "serializable" := by
  obtain ⟨h1, h2, h3, h4, h5⟩ :=
    withRetryModel_spec f isRetryablePostgresError 5 0 (by omega)
  have hatt : (withSerializableTransaction f).attempts =
      (withRetryModel f isRetryablePostgresError 0 5).2 := rfl
  have hres : (withSerializableTransaction f).result =
      (withRetryModel f isRetryablePostgresError 0 5).1 := rfl
  refine ⟨⟨by omega, by omega⟩, by rw [hres, hatt]; exact h3, ?_, ?_, ?_, ?_, rfl⟩
  · intro e hf0 hret
    have hone : (withRetryModel f isRetryablePostgresError 0 5).2 = 1 := by
      by_contra hne
      have hgt : 1 + 1 ≤ (withRetryModel f isRetryablePostgresError 0 5).2 := by omega
      obtain ⟨e', hfe', hre'⟩ := h4 0 (by omega) (by omega)
      rw [hf0] at hfe'
      cases hfe'
      rw [hre'] at hret
      cases hret
    refine ⟨by rw [hatt, hone], ?_⟩
    rw [hres, h3, hone]
    simpa using hf0
  · intro hall
    have hfive : (withRetryModel f isRetryablePostgresError 0 5).2 = 5 := by
      by_contra hne
      have hlt : (withRetryModel f isRetryablePostgresError 0 5).2 < 5 := by omega
      obtain ⟨i, hi⟩ : ∃ i, (withRetryModel f isRetryablePostgresError 0 5).2 - 1 = i :=
        ⟨_, rfl⟩
      obtain ⟨e, hfe, hre⟩ := hall i (by omega)
      rcases h5 (by omega) with ⟨a, ha⟩ | ⟨e', he', hre'⟩
      · rw [hi, hfe] at ha; cases ha
      · rw [hi, hfe] at he'
        cases he'
        rw [hre'] at hre
        cases hre
    refine ⟨by rw [hatt, hfive], ?_⟩
    rw [hres, h3, hfive]
  · intro j hj
    exact h4 j (by omega) (by rw [hatt] at hj; omega)
  · intro hlt
    rw [hres]
    rw [hatt] at hlt
    rcases h5 (by omega) with ⟨a, ha⟩ | ⟨e, he, hre⟩
    · exact Or.inl ⟨a, by rw [h3]; exact ha⟩
    · exact Or.inr ⟨e, by rw [h3]; exact he, hre⟩

/-- Witness for C4: a transaction that always fails with a serialization
failure (code 40001) is attempted exactly 5 times and rethrows the last
error, and a unique-violation failure (code 23505) is attempted exactly
once; both are obtained by applying the theorem. -/
theorem withSerializableTransaction_retry_spec_witness :
    (withSerializableTransaction
      (fun _ => Except.error (JsVal.vobj [("code", JsVal.vstr "40001")]) :
        Nat → Except JsVal Nat)).attempts = 5 ∧
    (withSerializableTransaction
      (fun _ => Except.error (JsVal.vobj [("code", JsVal.vstr "23505")]) :
        Nat → Except JsVal Nat)).attempts = 1 :=
  ⟨((withSerializableTransaction_retry_spec _).2.2.2.1
      (fun i _ => ⟨JsVal.vobj [("code", JsVal.vstr "40001")], rfl, by decide⟩)).1,
   ((withSerializableTransaction_retry_spec _).2.2.1
      (JsVal.vobj [("code", JsVal.vstr "23505")]) rfl (by decide)).1⟩

/-- C8: `isFreeAgent` returns true exactly when the agent-id component
parsed out of the full identifier belongs to the fixed five-element
free-tier set, and returns false whenever no agent id can be parsed. -/
theorem isFreeAgent_spec (fullAgentId : String) :
    (isFreeAgent fullAgentId = true ↔
      ∃ agentId, parseAgentId fullAgentId = some agentId ∧
        agentId ∈ (["file-picker", "file-picker-max", "file-lister",
                    "researcher-web", "researcher-docs"] : List String)) ∧
    (parseAgentId fullAgentId = none → isFreeAgent fullAgentId = false) := by
  constructor
  · cases hp : parseAgentId fullAgentId with
    | none =>
      simp only [isFreeAgent, hp]
      constructor
      · intro h; cases h
      · rintro ⟨agentId, h, _⟩; cases h
    | some agentId =>
      simp only [isFreeAgent, hp]
      constructor
      · intro h
        refine ⟨agentId, rfl, ?_⟩
        have hmem : agentId ∈ FREE_TIER_AGENTS := by
          simpa [List.contains, List.elem_iff] using h
        simpa [FREE_TIER_AGENTS] using hmem
      · rintro ⟨agentId', heq, hmem⟩
        cases heq
        simp only [List.contains, FREE_TIER_AGENTS]
        rw [List.elem_eq_true_of_mem]
        simpa using hmem
  · intro hp
    simp [isFreeAgent, hp]

/-- Witness for C8: the three identifier formats resolve the free-tier
agent `file-picker` to true, and an unknown agent to false; the positive
case is obtained by applying the theorem. -/
theorem isFreeAgent_spec_witness :
    isFreeAgent "codebuff/file-picker@0.0.2" = true ∧
    isFreeAgent "file-picker@1.0.0" = true ∧
    isFreeAgent "file-picker" = true ∧
    isFreeAgent "some-other-agent" = false :=
  ⟨(isFreeAgent_spec _).1.mpr ⟨"file-picker", by decide, by decide⟩,
   (isFreeAgent_spec _).1.mpr ⟨"file-picker", by decide, by decide⟩,
   (isFreeAgent_spec _).1.mpr ⟨"file-picker", by decide, by decide⟩,
   by decide⟩

/-! ## Theorems: the stream dispatcher -/

lemma runTasks_nil (env : Env) (s : PState) : runTasks env s [] = s := rfl

lemma runTasks_cons (env : Env) (s : PState) (t : ToolTask) (ts : List ToolTask) :
    runTasks env s (t :: ts) = runTasks env (runTask env s t) ts := rfl

lemma toolEvents_taskEvents (t : ToolTask) : toolEvents (taskEvents t) = taskEvents t := rfl

lemma runTask_fields (env : Env) (s : PState) (t : ToolTask) :
    (runTask env s t).events = s.events ++ taskEvents t ∧
    (runTask env s t).toolCalls = s.toolCalls ++ [t] ∧
    (runTask env s t).toolCallsToAddToMessageHistory =
      s.toolCallsToAddToMessageHistory ++ [t] ∧
    (runTask env s t).toolResults = s.toolResults ++ [toolResultMessage env t] ∧
    (runTask env s t).toolResultsToAddToMessageHistory =
      s.toolResultsToAddToMessageHistory ++ [toolResultMessage env t] ∧
    (runTask env s t).assistantMessages = s.assistantMessages ∧
    (runTask env s t).errorMessages = s.errorMessages ∧
    (runTask env s t).hadToolCallError = s.hadToolCallError ∧
    (runTask env s t).fullResponseChunks = s.fullResponseChunks ∧
    (runTask env s t).chain = s.chain ∧
    (runTask env s t).nextToolCallId = s.nextToolCallId :=
  ⟨rfl, rfl, rfl, rfl, rfl, rfl, rfl, rfl, rfl, rfl, rfl⟩

lemma runTasks_fields (env : Env) :
    ∀ (ts : List ToolTask) (s : PState),
    (runTasks env s ts).events = s.events ++ ts.flatMap taskEvents ∧
    (runTasks env s ts).toolCalls = s.toolCalls ++ ts ∧
    (runTasks env s ts).toolCallsToAddToMessageHistory =
      s.toolCallsToAddToMessageHistory ++ ts ∧
    (runTasks env s ts).toolResults =
      s.toolResults ++ ts.map (toolResultMessage env) ∧
    (runTasks env s ts).toolResultsToAddToMessageHistory =
      s.toolResultsToAddToMessageHistory ++ ts.map (toolResultMessage env) ∧
    (runTasks env s ts).assistantMessages = s.assistantMessages ∧
    (runTasks env s ts).errorMessages = s.errorMessages ∧
    (runTasks env s ts).hadToolCallError = s.hadToolCallError ∧
    (runTasks env s ts).fullResponseChunks = s.fullResponseChunks ∧
    (runTasks env s ts).chain = s.chain ∧
    (runTasks env s ts).nextToolCallId = s.nextToolCallId := by
  intro ts
  induction ts with
  | nil => intro s; simp [runTasks_nil]
  | cons t ts ih =>
    intro s
    obtain ⟨h1, h2, h3, h4, h5, h6, h7, h8, h9, h10, h11⟩ := ih (runTask env s t)
    rw [runTasks_cons]
    refine ⟨?_, ?_, ?_, ?_, ?_, ?_, ?_, ?_, ?_, ?_, ?_⟩
    · rw [h1]; simp [runTask, taskEvents]
    · rw [h2]; simp [runTask]
    · rw [h3]; simp [runTask]
    · rw [h4]; simp [runTask]
    · rw [h5]; simp [runTask]
    · rw [h6]; rfl
    · rw [h7]; rfl
    · rw [h8]; rfl
    · rw [h9]; rfl
    · rw [h10]; rfl
    · rw [h11]; rfl

lemma stateOk_runTask {env : Env} {s : PState} (t : ToolTask) (hok : StateOk env s) :
    StateOk env (runTask env s t) := by
  refine ⟨?_, ?_, ?_, ?_, ?_, ?_⟩
  · show s.toolCallsToAddToMessageHistory ++ [t] = s.toolCalls ++ [t]
    rw [hok.callsHist]
  · show s.toolResultsToAddToMessageHistory ++ [toolResultMessage env t] =
      s.toolResults ++ [toolResultMessage env t]
    rw [hok.resultsHist]
  · show s.toolResults ++ [toolResultMessage env t] =
      (s.toolCalls ++ [t]).map (toolResultMessage env)
    rw [hok.resultsForm, List.map_append]
    rfl
  · show toolEvents (s.events ++ taskEvents t) = (s.toolCalls ++ [t]).flatMap taskEvents
    rw [toolEvents, List.filter_append]
    rw [show List.filter isToolEvent s.events = toolEvents s.events from rfl]
    rw [hok.eventsForm, List.flatMap_append]
    rfl
  · exact hok.assistantForm
  · exact hok.errorForm

lemma stateOk_runTasks {env : Env} :
    ∀ (ts : List ToolTask) {s : PState}, StateOk env s → StateOk env (runTasks env s ts) := by
  intro ts
  induction ts with
  | nil => intro s hok; exact hok
  | cons t ts ih =>
    intro s hok
    rw [runTasks_cons]
    exact ih (stateOk_runTask t hok)

lemma stateOk_recordError {env : Env} {s : PState} (msg : String) (hok : StateOk env s) :
    StateOk env (recordToolCallError msg s) := by
  refine ⟨hok.callsHist, hok.resultsHist, hok.resultsForm, ?_, hok.assistantForm, ?_⟩
  · show toolEvents (s.events ++ [UiEvent.errorEvent msg]) = s.toolCalls.flatMap taskEvents
    rw [toolEvents, List.filter_append]
    rw [show List.filter isToolEvent s.events = toolEvents s.events from rfl]
    rw [hok.eventsForm]
    simp [isToolEvent]
  · intro m hm
    rw [show (recordToolCallError msg s).errorMessages =
      s.errorMessages ++ [Message.user (withSystemTags (toolCallErrorText msg))] from rfl] at hm
    rcases List.mem_append.1 hm with h | h
    · exact hok.errorForm m h
    · simp at h
      exact ⟨msg, h⟩

lemma stateOk_set_chain {env : Env} {s : PState} (c : ChainState) (m : Nat)
    (hok : StateOk env s) :
    StateOk env { s with chain := c, nextToolCallId := m } :=
  ⟨hok.callsHist, hok.resultsHist, hok.resultsForm, hok.eventsForm,
   hok.assistantForm, hok.errorForm⟩

lemma stateOk_onTagEnd {env : Env} {s s' : PState} {ab m : Bool} {n : String} {i : ToolInput}
    (h : onTagEnd env ab m n i s = some s') (hok : StateOk env s) : StateOk env s' := by
  rw [onTagEnd] at h
  by_cases hab : ab
  · rw [if_pos hab] at h
    cases h
    exact hok
  · rw [if_neg hab] at h
    by_cases hacc : dispatchAccepted env n i
    · simp only [hacc, Bool.not_true, Bool.false_eq_true, if_false, reduceIte] at h
      by_cases hm : m
      · subst hm
        simp only [if_true] at h
        cases hc : s.chain <;> rw [hc] at h <;> simp only [] at h
        · cases h
          exact stateOk_runTask _ (stateOk_set_chain _ _ hok)
        · cases h
          exact stateOk_runTask _ (stateOk_set_chain _ _ hok)
        · cases h
        · cases h
          exact stateOk_runTask _ (stateOk_runTasks _ (stateOk_set_chain _ _ hok))
      · simp only [hm, if_false, reduceIte] at h
        cases h
        exact stateOk_set_chain _ _ hok
    · simp only [hacc] at h
      simp at h
      cases h
      exact stateOk_recordError _ (stateOk_set_chain _ _ hok)

lemma ipair_blocks (env : Env) (A D : List Message) (calls : List ToolTask)
    (hA : ∀ m ∈ A, ∃ t, m = Message.assistantText t)
    (hD : ∀ m ∈ D, ∃ t, m = Message.user t) :
    IPair (A ++ (calls.map toolCallMessage ++ (calls.map (toolResultMessage env) ++ D))) := by
  intro i h id n out hm
  simp only [List.get_eq_getElem] at hm
  by_cases h1 : i < A.length
  · rw [List.getElem_append_left h1] at hm
    obtain ⟨t, ht⟩ := hA _ (List.getElem_mem h1)
    rw [ht] at hm
    cases hm
  · have h1' : A.length ≤ i := Nat.le_of_not_lt h1
    rw [List.getElem_append_right h1'] at hm
    by_cases h2 : i - A.length < calls.length
    · rw [List.getElem_append_left (by simpa using h2)] at hm
      rw [List.getElem_map] at hm
      rw [toolCallMessage] at hm
      cases hm
    · have h2' : calls.length ≤ i - A.length := Nat.le_of_not_lt h2
      rw [List.getElem_append_right (by simpa using h2')] at hm
      by_cases h3 : i - A.length - calls.length < calls.length
      · rw [List.getElem_append_left (by simpa using h3)] at hm
        rw [List.getElem_map] at hm
        rw [toolResultMessage] at hm
        simp only [List.length_map] at hm
        injection hm with hid hn hout
        subst hid
        refine ⟨A.length + (i - A.length - calls.length), ?_, ?_, ?_⟩
        · simp only [List.length_append, List.length_map]
          omega
        · omega
        · simp only [List.get_eq_getElem]
          rw [List.getElem_append_right (by omega)]
          simp only [Nat.add_sub_cancel_left]
          rw [List.getElem_append_left (by simp; omega)]
          rw [List.getElem_map]
          exact ⟨_, _, rfl⟩
      · have h3' : calls.length ≤ i - A.length - calls.length := Nat.le_of_not_lt h3
        rw [List.getElem_append_right (by simpa using h3')] at hm
        obtain ⟨t, ht⟩ := hD _ (List.getElem_mem _)
        rw [ht] at hm
        cases hm

lemma stateOk_init (env : Env) (fullResponse : String) : StateOk env (initState fullResponse) := by
  refine ⟨rfl, rfl, rfl, rfl, ?_, ?_⟩ <;> intro m hm <;> cases hm

lemma stateOk_stepChunk {env : Env} {ab : Bool} {c : Chunk} {s s' : PState}
    (h : stepChunk env ab c s = some s') (hok : StateOk env s) : StateOk env s' := by
  cases c with
  | text t =>
    cases h
    refine ⟨hok.callsHist, hok.resultsHist, hok.resultsForm, ?_, ?_, hok.errorForm⟩
    · show toolEvents (s.events ++ [UiEvent.textDelta t]) = s.toolCalls.flatMap taskEvents
      rw [toolEvents, List.filter_append]
      rw [show List.filter isToolEvent s.events = toolEvents s.events from rfl]
      rw [hok.eventsForm]
      simp [isToolEvent]
    · intro m hm
      rw [show ({ s with
          assistantMessages :=
            s.assistantMessages ++ (if t = "" then [] else [Message.assistantText t]),
          fullResponseChunks := s.fullResponseChunks ++ [t],
          events := s.events ++ [UiEvent.textDelta t] } : PState).assistantMessages =
        s.assistantMessages ++ (if t = "" then [] else [Message.assistantText t]) from rfl] at hm
      rcases List.mem_append.1 hm with hmem | hmem
      · exact hok.assistantForm m hmem
      · by_cases ht : t = ""
        · rw [if_pos ht] at hmem; cases hmem
        · rw [if_neg ht] at hmem
          simp at hmem
          exact ⟨t, hmem⟩
  | reasoning t =>
    cases h
    refine ⟨hok.callsHist, hok.resultsHist, hok.resultsForm, ?_, hok.assistantForm, hok.errorForm⟩
    show toolEvents (s.events ++ [UiEvent.reasoningDelta t]) = s.toolCalls.flatMap taskEvents
    rw [toolEvents, List.filter_append]
    rw [show List.filter isToolEvent s.events = toolEvents s.events from rfl]
    rw [hok.eventsForm]
    simp [isToolEvent]
  | errorChunk m =>
    cases h
    exact stateOk_recordError m hok
  | toolCallStructured n i => exact stateOk_onTagEnd h hok
  | xmlToolCall n i => exact stateOk_onTagEnd h hok

lemma stateOk_runLoop {env : Env} :
    ∀ (chunks : List Chunk) (ab : Option Nat) {s s' : PState},
      runLoop env chunks ab s = some s' → StateOk env s → StateOk env s' := by
  intro chunks
  induction chunks with
  | nil =>
    intro ab s s' h hok
    cases h
    exact hok
  | cons c cs ih =>
    intro ab s s' h hok
    rw [runLoop] at h
    by_cases hab : ab = some 0
    · rw [if_pos hab] at h
      cases h
      exact hok
    · rw [if_neg hab] at h
      cases hs : stepChunk env false c s with
      | none => rw [hs] at h; cases h
      | some s1 =>
        rw [hs] at h
        exact ih _ h (stateOk_stepChunk hs hok)

lemma processStream_cases {env : Env} {snapshot : List Message} {fullResponse : String}
    {chunks : List Chunk} {abortAt : Option Nat} {res : StreamResult}
    (h : processStream env snapshot fullResponse chunks abortAt = some res) :
    ∃ s, runLoop env chunks abortAt (initState fullResponse) = some s ∧
      ∃ s2,
        ((abortedAtEnd chunks abortAt = true ∧ s2 = s) ∨
          (abortedAtEnd chunks abortAt = false ∧
            s2 = runTasks env
              { s with events := s.events ++ [UiEvent.streamDoneMark],
                       chain := ChainState.resolved } s.chain.queued)) ∧
        res.messageHistory = commitHistory snapshot s2 ∧
        res.assistantMessages = s2.assistantMessages ∧
        res.toolCalls = s2.toolCalls ∧
        res.toolCallsToAddToMessageHistory = s2.toolCallsToAddToMessageHistory ∧
        res.toolResults = s2.toolResults ∧
        res.toolResultsToAddToMessageHistory = s2.toolResultsToAddToMessageHistory ∧
        res.errorMessages = s2.errorMessages ∧
        res.hadToolCallError = s2.hadToolCallError ∧
        res.events = s2.events ++ [UiEvent.commitMark] := by
  rw [processStream] at h
  cases hs : runLoop env chunks abortAt (initState fullResponse) with
  | none => rw [hs] at h; cases h
  | some s =>
    rw [hs] at h
    refine ⟨s, rfl, ?_⟩
    by_cases hab : abortedAtEnd chunks abortAt
    · rw [show (abortedAtEnd chunks abortAt : Bool) = true from by simpa using hab] at h
      simp only [if_pos] at h
      cases h
      exact ⟨s, Or.inl ⟨by simpa using hab, rfl⟩, rfl, rfl, rfl, rfl, rfl, rfl, rfl, rfl, rfl⟩
    · rw [show (abortedAtEnd chunks abortAt : Bool) = false from by simpa using hab] at h
      simp only [Bool.false_eq_true, if_false] at h
      cases h
      exact ⟨_, Or.inr ⟨by simpa using hab, rfl⟩, rfl, rfl, rfl, rfl, rfl, rfl, rfl, rfl, rfl⟩

lemma stateOk_mark {env : Env} {s : PState} (hok : StateOk env s) :
    StateOk env { s with events := s.events ++ [UiEvent.streamDoneMark],
                         chain := ChainState.resolved } := by
  refine ⟨hok.callsHist, hok.resultsHist, hok.resultsForm, ?_,
    hok.assistantForm, hok.errorForm⟩
  show toolEvents (s.events ++ [UiEvent.streamDoneMark]) = s.toolCalls.flatMap taskEvents
  rw [toolEvents, List.filter_append]
  rw [show List.filter isToolEvent s.events = toolEvents s.events from rfl]
  rw [hok.eventsForm]
  simp [isToolEvent]

/-- C1: a step of `processStream` that terminates without abort rewrites the
message history to the pre-stream snapshot, followed by the assistant text
messages, one assistant tool-call message per recorded call in order, the
recorded tool results in the same order, and the user error messages; the
appended region satisfies I-PAIR (so I-ADJACENT and I-NO-ORPHAN hold), and
the rewrite happens only after every recorded call has its result event
emitted, before the commit mark. -/
theorem processStream_commit_shape (env : Env) (snapshot : List Message)
    (fullResponse : String) (chunks : List Chunk) (res : StreamResult)
    (h : processStream env snapshot fullResponse chunks none = some res) :
    res.messageHistory = snapshot ++ res.assistantMessages ++
      res.toolCallsToAddToMessageHistory.map toolCallMessage ++
      res.toolResultsToAddToMessageHistory ++ res.errorMessages ∧
    res.toolCallsToAddToMessageHistory = res.toolCalls ∧
    res.toolResultsToAddToMessageHistory =
      res.toolCallsToAddToMessageHistory.map (toolResultMessage env) ∧
    (∀ m ∈ res.assistantMessages, ∃ t, m = Message.assistantText t) ∧
    (∀ m ∈ res.errorMessages, ∃ t, m = Message.user t) ∧
    IPair (res.messageHistory.drop snapshot.length) ∧
    ∃ E, res.events = E ++ [UiEvent.commitMark] ∧
      ∀ t ∈ res.toolCallsToAddToMessageHistory,
        UiEvent.toolResultEvent t.toolCallId t.toolName ∈ E := by
  obtain ⟨s, hloop, s2, hcase, hhist, hasst, hcalls, hcallsHist, hresults,
    hresultsHist, herrs, hflag, hevents⟩ := processStream_cases h
  have hab : abortedAtEnd chunks none = false := rfl
  rcases hcase with ⟨habt, _⟩ | ⟨_, hs2⟩
  · rw [hab] at habt; cases habt
  have hok : StateOk env s := stateOk_runLoop chunks none hloop (stateOk_init env fullResponse)
  have hok2 : StateOk env s2 := by
    rw [hs2]
    exact stateOk_runTasks _ (stateOk_mark hok)
  refine ⟨?_, ?_, ?_, ?_, ?_, ?_, ?_⟩
  · rw [hhist, commitHistory, hasst, hcallsHist, hresultsHist, herrs]
  · rw [hcallsHist, hok2.callsHist, hcalls]
  · rw [hresultsHist, hok2.resultsHist, hok2.resultsForm, hcallsHist, hok2.callsHist]
  · rw [hasst]; exact hok2.assistantForm
  · rw [herrs]
    intro m hm
    obtain ⟨t, ht⟩ := hok2.errorForm m hm
    exact ⟨_, ht⟩
  · rw [hhist]
    have hch : commitHistory snapshot s2 = snapshot ++
        (s2.assistantMessages ++ (s2.toolCallsToAddToMessageHistory.map toolCallMessage ++
          (s2.toolResultsToAddToMessageHistory ++ s2.errorMessages))) := by
      rw [commitHistory]
      simp [List.append_assoc]
    rw [hch, List.drop_left]
    rw [hok2.callsHist, hok2.resultsHist, hok2.resultsForm]
    refine ipair_blocks env _ _ _ hok2.assistantForm ?_
    intro m hm
    obtain ⟨t, ht⟩ := hok2.errorForm m hm
    exact ⟨_, ht⟩
  · refine ⟨s2.events, hevents, ?_⟩
    intro t ht
    rw [hcallsHist, hok2.callsHist] at ht
    have hmemflat : UiEvent.toolResultEvent t.toolCallId t.toolName ∈
        s2.toolCalls.flatMap taskEvents :=
      List.mem_flatMap.2 ⟨t, ht, by simp [taskEvents]⟩
    rw [← hok2.eventsForm] at hmemflat
    exact (List.mem_filter.1 hmemflat).1

/-- C2: tool effects are serialized in parse order through the promise
chain: the tool-call/tool-result events of a finished step are exactly the
per-call pairs in recorded order (each `tool_call` event immediately
followed by its own `tool_result` event, so a later recorded result never
precedes an earlier one), each recorded result is the matching call's
handler outcome in the same order, and an accepted dispatch appends the
call to the captured `previousToolCallFinished` chain and replaces the
chain with the new execution. -/
theorem toolEvents_serialized (env : Env) (snapshot : List Message)
    (fullResponse : String) (chunks : List Chunk) (abortAt : Option Nat)
    (res : StreamResult)
    (h : processStream env snapshot fullResponse chunks abortAt = some res) :
    toolEvents res.events = res.toolCalls.flatMap taskEvents ∧
    res.toolResults = res.toolCalls.map (toolResultMessage env) ∧
    ∀ (s : PState) (n : String) (i : ToolInput),
      dispatchAccepted env n i = true →
      onTagEnd env false false n i s = some
        { s with
          nextToolCallId := s.nextToolCallId + 1,
          chain := s.chain.enqueue
            { toolCallId := s.nextToolCallId
              toolName := (effectiveCall env n i).1
              input := (effectiveCall env n i).2 } } := by
  obtain ⟨s, hloop, s2, hcase, hhist, hasst, hcalls, hcallsHist, hresults,
    hresultsHist, herrs, hflag, hevents⟩ := processStream_cases h
  have hok : StateOk env s :=
    stateOk_runLoop chunks abortAt hloop (stateOk_init env fullResponse)
  have hok2 : StateOk env s2 := by
    rcases hcase with ⟨_, hs2⟩ | ⟨_, hs2⟩
    · rw [hs2]; exact hok
    · rw [hs2]; exact stateOk_runTasks _ (stateOk_mark hok)
  refine ⟨?_, ?_, ?_⟩
  · rw [hevents, hcalls, toolEvents, List.filter_append]
    rw [show List.filter isToolEvent s2.events = toolEvents s2.events from rfl]
    rw [hok2.eventsForm]
    simp [isToolEvent]
  · rw [hresults, hcalls, hok2.resultsForm]
  · intro s n i hacc
    rw [onTagEnd]
    simp [hacc]

lemma onTagEnd_error {env : Env} {n : String} {i : ToolInput} (m : Bool) (s : PState)
    (hbad : dispatchAccepted env n i = false) :
    onTagEnd env false m n i s = some (recordToolCallError (dispatchErrorMessage env n i)
      { s with nextToolCallId := s.nextToolCallId + 1 }) := by
  rw [onTagEnd]
  simp [hbad]

lemma runLoop_append_none (env : Env) :
    ∀ (cs1 cs2 : List Chunk) (s : PState),
      runLoop env (cs1 ++ cs2) none s =
        (runLoop env cs1 none s).bind (fun s1 => runLoop env cs2 none s1) := by
  intro cs1
  induction cs1 with
  | nil => intro cs2 s; simp [runLoop]
  | cons c cs ih =>
    intro cs2 s
    rw [List.cons_append, runLoop, runLoop]
    rw [if_neg (by simp : ¬(none : Option Nat) = some 0),
        if_neg (by simp : ¬(none : Option Nat) = some 0)]
    cases hs : stepChunk env false c s with
    | none => simp
    | some s1 => simp [ih]

lemma runLoop_texts (env : Env) :
    ∀ (ts : List String) (s : PState),
      ∃ s', runLoop env (ts.map Chunk.text) none s = some s' ∧
        s'.toolCalls = s.toolCalls ∧
        s'.toolCallsToAddToMessageHistory = s.toolCallsToAddToMessageHistory ∧
        s'.toolResults = s.toolResults ∧
        s'.toolResultsToAddToMessageHistory = s.toolResultsToAddToMessageHistory ∧
        s'.errorMessages = s.errorMessages ∧
        s'.hadToolCallError = s.hadToolCallError ∧
        s'.chain = s.chain ∧
        s'.nextToolCallId = s.nextToolCallId ∧
        s'.events = s.events ++ ts.map UiEvent.textDelta := by
  intro ts
  induction ts with
  | nil => intro s; exact ⟨s, rfl, rfl, rfl, rfl, rfl, rfl, rfl, rfl, rfl, by simp⟩
  | cons t ts ih =>
    intro s
    obtain ⟨s', hloop, h1, h2, h3, h4, h5, h6, h7, h8, h9⟩ := ih
      { s with
        assistantMessages :=
          s.assistantMessages ++ (if t = "" then [] else [Message.assistantText t])
        fullResponseChunks := s.fullResponseChunks ++ [t]
        events := s.events ++ [UiEvent.textDelta t] }
    refine ⟨s', ?_, h1, h2, h3, h4, h5, h6, h7, h8, ?_⟩
    · rw [List.map_cons, runLoop,
        if_neg (by simp : ¬(none : Option Nat) = some 0)]
      exact hloop
    · rw [h9]
      simp

lemma errorEvents_textDeltas (ts : List String) :
    errorEvents (ts.map UiEvent.textDelta) = [] := by
  induction ts with
  | nil => rfl
  | cons t ts ih => simp [errorEvents, isErrorEvent, List.filter, ih]

lemma toolEvents_textDeltas (ts : List String) :
    toolEvents (ts.map UiEvent.textDelta) = [] := by
  induction ts with
  | nil => rfl
  | cons t ts ih => simp [toolEvents, isToolEvent, List.filter, ih]

/-- C3: a tool call that fails lookup or schema validation produces exactly
one error UI event and no tool_call/tool_result event, records no assistant
tool-call part and no tool message, sets `hadToolCallError`, and appends
after all tool results a user message built from the error text with the
fixed prefix and suffix. -/
theorem dispatch_error_isolated (env : Env) (snapshot : List Message)
    (fullResponse : String) (ts1 ts2 : List String) (isXml : Bool)
    (n : String) (i : ToolInput) (res : StreamResult)
    (hbad : dispatchAccepted env n i = false)
    (h : processStream env snapshot fullResponse
      (ts1.map Chunk.text ++
        ((if isXml then Chunk.xmlToolCall n i else Chunk.toolCallStructured n i) ::
          ts2.map Chunk.text)) none = some res) :
    errorEvents res.events = [UiEvent.errorEvent (dispatchErrorMessage env n i)] ∧
    toolEvents res.events = [] ∧
    res.toolCalls = [] ∧
    res.toolCallsToAddToMessageHistory = [] ∧
    res.toolResults = [] ∧
    res.toolResultsToAddToMessageHistory = [] ∧
    res.hadToolCallError = true ∧
    res.errorMessages =
      [Message.user (withSystemTags (toolCallErrorText (dispatchErrorMessage env n i)))] ∧
    res.messageHistory = snapshot ++ res.assistantMessages ++ res.errorMessages := by
  obtain ⟨s1, hloop1, h1c, h1ch, h1r, h1rh, h1e, h1f, h1chain, h1id, h1ev⟩ :=
    runLoop_texts env ts1 (initState fullResponse)
  have hstep : stepChunk env false
      (if isXml then Chunk.xmlToolCall n i else Chunk.toolCallStructured n i) s1 =
      some (recordToolCallError (dispatchErrorMessage env n i)
        { s1 with nextToolCallId := s1.nextToolCallId + 1 }) := by
    cases isXml with
    | true => rw [if_pos rfl, stepChunk]; exact onTagEnd_error true s1 hbad
    | false => rw [if_neg (by simp), stepChunk]; exact onTagEnd_error false s1 hbad
  obtain ⟨s3, hloop3, h3c, h3ch, h3r, h3rh, h3e, h3f, h3chain, h3id, h3ev⟩ :=
    runLoop_texts env ts2 (recordToolCallError (dispatchErrorMessage env n i)
      { s1 with nextToolCallId := s1.nextToolCallId + 1 })
  have hloop : runLoop env
      (ts1.map Chunk.text ++
        ((if isXml then Chunk.xmlToolCall n i else Chunk.toolCallStructured n i) ::
          ts2.map Chunk.text)) none (initState fullResponse) = some s3 := by
    rw [runLoop_append_none, hloop1]
    show runLoop env _ none s1 = some s3
    rw [runLoop, if_neg (by simp : ¬(none : Option Nat) = some 0), hstep]
    exact hloop3
  obtain ⟨s, hloop', s2, hcase, hhist, hasst, hcalls, hcallsHist, hresults,
    hresultsHist, herrs, hflag, hevents⟩ := processStream_cases h
  rw [hloop] at hloop'
  cases hloop'
  rcases hcase with ⟨habt, _⟩ | ⟨_, hs2⟩
  · rw [show abortedAtEnd _ (none : Option Nat) = false from rfl] at habt
    cases habt
  have hchain3 : s3.chain = ChainState.initial := by
    rw [h3chain]
    exact h1chain
  have hs2' : s2 = { s3 with events := s3.events ++ [UiEvent.streamDoneMark],
                             chain := ChainState.resolved } := by
    rw [hs2, hchain3]
    rfl
  have hcallsEmpty : s2.toolCalls = [] := by
    rw [hs2']
    show s3.toolCalls = []
    rw [h3c]
    show s1.toolCalls = []
    rw [h1c]
    rfl
  have hcallsHistEmpty : s2.toolCallsToAddToMessageHistory = [] := by
    rw [hs2']
    show s3.toolCallsToAddToMessageHistory = []
    rw [h3ch]
    show s1.toolCallsToAddToMessageHistory = []
    rw [h1ch]
    rfl
  have hresultsEmpty : s2.toolResults = [] := by
    rw [hs2']
    show s3.toolResults = []
    rw [h3r]
    show s1.toolResults = []
    rw [h1r]
    rfl
  have hresultsHistEmpty : s2.toolResultsToAddToMessageHistory = [] := by
    rw [hs2']
    show s3.toolResultsToAddToMessageHistory = []
    rw [h3rh]
    show s1.toolResultsToAddToMessageHistory = []
    rw [h1rh]
    rfl
  have herrsOne : s2.errorMessages =
      [Message.user (withSystemTags (toolCallErrorText (dispatchErrorMessage env n i)))] := by
    rw [hs2']
    show s3.errorMessages = _
    rw [h3e]
    show s1.errorMessages ++ _ = _
    rw [h1e]
    rfl
  have hflagTrue : s2.hadToolCallError = true := by
    rw [hs2']
    show s3.hadToolCallError = true
    rw [h3f]
    rfl
  have hev2 : s2.events =
      ((ts1.map UiEvent.textDelta ++ [UiEvent.errorEvent (dispatchErrorMessage env n i)]) ++
        ts2.map UiEvent.textDelta) ++ [UiEvent.streamDoneMark] := by
    rw [hs2']
    show s3.events ++ _ = _
    rw [h3ev]
    show ((s1.events ++ [UiEvent.errorEvent (dispatchErrorMessage env n i)]) ++
      ts2.map UiEvent.textDelta) ++ _ = _
    rw [h1ev]
    rfl
  refine ⟨?_, ?_, ?_, ?_, ?_, ?_, ?_, ?_, ?_⟩
  · rw [hevents, hev2]
    have hfa : ∀ (l1 l2 : List UiEvent),
        errorEvents (l1 ++ l2) = errorEvents l1 ++ errorEvents l2 := by
      intro l1 l2; simp [errorEvents]
    rw [hfa, hfa, hfa, hfa, errorEvents_textDeltas, errorEvents_textDeltas]
    simp [errorEvents, isErrorEvent, List.filter]
  · rw [hevents, hev2]
    have hfa : ∀ (l1 l2 : List UiEvent),
        toolEvents (l1 ++ l2) = toolEvents l1 ++ toolEvents l2 := by
      intro l1 l2; simp [toolEvents]
    rw [hfa, hfa, hfa, hfa, toolEvents_textDeltas, toolEvents_textDeltas]
    simp [toolEvents, isToolEvent, List.filter]
  · rw [hcalls, hcallsEmpty]
  · rw [hcallsHist, hcallsHistEmpty]
  · rw [hresults, hresultsEmpty]
  · rw [hresultsHist, hresultsHistEmpty]
  · rw [hflag, hflagTrue]
  · rw [herrs, herrsOne]
  · rw [hhist, commitHistory, hasst, herrs, hcallsHistEmpty, hresultsHistEmpty]
    simp

lemma runLoop_take (env : Env) :
    ∀ (chunks : List Chunk) (k : Nat) (s : PState),
      runLoop env chunks (some k) s = runLoop env (chunks.take k) (some k) s := by
  intro chunks
  induction chunks with
  | nil => intro k s; rw [List.take_nil]
  | cons c cs ih =>
    intro k s
    cases k with
    | zero => simp [runLoop, List.take_zero]
    | succ k =>
      rw [List.take_succ_cons, runLoop, runLoop,
          if_neg (by simp : ¬(some (k + 1) : Option Nat) = some 0),
          if_neg (by simp : ¬(some (k + 1) : Option Nat) = some 0)]
      cases hs : stepChunk env false c s with
      | none => rfl
      | some s1 => exact ih k s1

lemma abortedAtEnd_take (chunks : List Chunk) (k : Nat) :
    abortedAtEnd chunks (some k) = abortedAtEnd (chunks.take k) (some k) := by
  simp only [abortedAtEnd, List.length_take, decide_eq_decide]
  omega

/-- C6: once the abort signal has fired, `onTagEnd` returns without
assigning a tool-call id or invoking any executor, the consumption loop
exits at its next iteration, only the chunks processed before the abort
matter, and an aborted step still rewrites the message history from the
snapshot with exactly the tool calls and results recorded before the abort
(the queued chain is never drained). -/
theorem abort_stops_dispatch (env : Env) :
    (∀ (m : Bool) (n : String) (i : ToolInput) (s : PState),
      onTagEnd env true m n i s = some s) ∧
    (∀ (chunks : List Chunk) (s : PState), runLoop env chunks (some 0) s = some s) ∧
    (∀ (snapshot : List Message) (fullResponse : String) (chunks : List Chunk) (k : Nat),
      processStream env snapshot fullResponse chunks (some k) =
        processStream env snapshot fullResponse (chunks.take k) (some k)) ∧
    (∀ (snapshot : List Message) (fullResponse : String) (chunks : List Chunk)
        (k : Nat) (res : StreamResult), k ≤ chunks.length →
      processStream env snapshot fullResponse chunks (some k) = some res →
      ∃ s, runLoop env chunks (some k) (initState fullResponse) = some s ∧
        res.toolCalls = s.toolCalls ∧
        res.toolCallsToAddToMessageHistory = s.toolCallsToAddToMessageHistory ∧
        res.toolResults = s.toolResults ∧
        res.toolResultsToAddToMessageHistory = s.toolResultsToAddToMessageHistory ∧
        res.errorMessages = s.errorMessages ∧
        res.messageHistory = commitHistory snapshot s) := by
  refine ⟨?_, ?_, ?_, ?_⟩
  · intro m n i s
    rw [onTagEnd, if_pos rfl]
  · intro chunks s
    cases chunks with
    | nil => rfl
    | cons c cs => rw [runLoop, if_pos rfl]
  · intro snapshot fullResponse chunks k
    rw [processStream, processStream, runLoop_take env chunks k, abortedAtEnd_take]
  · intro snapshot fullResponse chunks k res hk h
    obtain ⟨s, hloop, s2, hcase, hhist, hasst, hcalls, hcallsHist, hresults,
      hresultsHist, herrs, hflag, hevents⟩ := processStream_cases h
    rcases hcase with ⟨_, hs2⟩ | ⟨habt, _⟩
    · exact ⟨s, hloop, by rw [hcalls, hs2], by rw [hcallsHist, hs2],
        by rw [hresults, hs2], by rw [hresultsHist, hs2],
        by rw [herrs, hs2], by rw [hhist, hs2]⟩
    · simp only [abortedAtEnd, decide_eq_false_iff_not] at habt
      omega

lemma onTagEnd_accepted_cases {env : Env} {n : String} {i : ToolInput} {s : PState}
    (hacc : dispatchAccepted env n i = true) (m : Bool) :
    onTagEnd env false m n i s =
      (let t : ToolTask :=
        { toolCallId := s.nextToolCallId
          toolName := (effectiveCall env n i).1
          input := (effectiveCall env n i).2 }
      let s1 := { s with nextToolCallId := s.nextToolCallId + 1 }
      if m then
        match s1.chain with
        | .initial => some (runTask env { s1 with chain := .resolved } t)
        | .resolved => some (runTask env { s1 with chain := .resolved } t)
        | .pendingReady ts =>
          some (runTask env (runTasks env { s1 with chain := .resolved } ts) t)
        | .pendingFromStart _ => none
      else some { s1 with chain := s1.chain.enqueue t }) := by
  rw [onTagEnd]
  simp [hacc]

lemma onTagEnd_events_mono {env : Env} {ab m : Bool} {n : String} {i : ToolInput}
    {s s' : PState} (h : onTagEnd env ab m n i s = some s') :
    ∃ δ, s'.events = s.events ++ δ := by
  by_cases hab : ab
  · subst hab
    rw [onTagEnd, if_pos rfl] at h
    cases h
    exact ⟨[], by simp⟩
  · have hab' : ab = false := by simpa using hab
    subst hab'
    by_cases hacc : dispatchAccepted env n i
    · rw [onTagEnd_accepted_cases hacc m] at h
      by_cases hm : m
      · subst hm
        simp only [if_pos] at h
        cases hc : s.chain with
        | initial =>
          rw [show ({ s with nextToolCallId := s.nextToolCallId + 1 } : PState).chain =
            s.chain from rfl, hc] at h
          cases h
          exact ⟨_, rfl⟩
        | resolved =>
          rw [show ({ s with nextToolCallId := s.nextToolCallId + 1 } : PState).chain =
            s.chain from rfl, hc] at h
          cases h
          exact ⟨_, rfl⟩
        | pendingFromStart ts =>
          rw [show ({ s with nextToolCallId := s.nextToolCallId + 1 } : PState).chain =
            s.chain from rfl, hc] at h
          cases h
        | pendingReady ts =>
          rw [show ({ s with nextToolCallId := s.nextToolCallId + 1 } : PState).chain =
            s.chain from rfl, hc] at h
          cases h
          obtain ⟨hev, _⟩ := runTask_fields env
            (runTasks env { s with nextToolCallId := s.nextToolCallId + 1,
                                   chain := ChainState.resolved } ts)
            { toolCallId := s.nextToolCallId
              toolName := (effectiveCall env n i).1
              input := (effectiveCall env n i).2 }
          obtain ⟨hev2, _⟩ := runTasks_fields env ts
            { s with nextToolCallId := s.nextToolCallId + 1, chain := ChainState.resolved }
          exact ⟨ts.flatMap taskEvents ++ taskEvents
              { toolCallId := s.nextToolCallId
                toolName := (effectiveCall env n i).1
                input := (effectiveCall env n i).2 },
            by rw [hev, hev2, List.append_assoc]⟩
      · have hm' : m = false := by simpa using hm
        subst hm'
        simp only [Bool.false_eq_true, if_false] at h
        cases h
        exact ⟨[], by simp⟩
    · have hacc' : dispatchAccepted env n i = false := by simpa using hacc
      rw [onTagEnd_error m s hacc'] at h
      cases h
      exact ⟨[UiEvent.errorEvent (dispatchErrorMessage env n i)], rfl⟩

/-- C7: an inline (tag-grammar) tool call is awaited at dispatch: when
`onTagEnd` in XML mode returns, the new call's `tool_result` event is the
last event emitted, so anything the parser produces afterwards (in
particular text following the closing tag) comes after that result; a
structured dispatch emits nothing at dispatch time; and chunk processing
only ever appends to the event stream. -/
theorem xml_dispatch_awaited (env : Env) :
    (∀ (n : String) (i : ToolInput) (s s' : PState),
      dispatchAccepted env n i = true →
      onTagEnd env false true n i s = some s' →
      ∃ δ, s'.events = s.events ++ δ ++
        [UiEvent.toolResultEvent s.nextToolCallId (effectiveCall env n i).1]) ∧
    (∀ (n : String) (i : ToolInput) (s : PState),
      dispatchAccepted env n i = true →
      ∃ s', onTagEnd env false false n i s = some s' ∧ s'.events = s.events) ∧
    (∀ (c : Chunk) (s s' : PState), stepChunk env false c s = some s' →
      ∃ δ, s'.events = s.events ++ δ) := by
  refine ⟨?_, ?_, ?_⟩
  · intro n i s s' hacc h
    rw [onTagEnd_accepted_cases hacc true] at h
    simp only [if_pos] at h
    cases hc : s.chain with
    | initial =>
      rw [show ({ s with nextToolCallId := s.nextToolCallId + 1 } : PState).chain =
        s.chain from rfl, hc] at h
      cases h
      exact ⟨[UiEvent.toolCallEvent s.nextToolCallId (effectiveCall env n i).1],
        by rw [show ∀ t hs, (runTask env hs t).events = hs.events ++ taskEvents t
          from fun _ _ => rfl]; simp [taskEvents]⟩
    | resolved =>
      rw [show ({ s with nextToolCallId := s.nextToolCallId + 1 } : PState).chain =
        s.chain from rfl, hc] at h
      cases h
      exact ⟨[UiEvent.toolCallEvent s.nextToolCallId (effectiveCall env n i).1],
        by rw [show ∀ t hs, (runTask env hs t).events = hs.events ++ taskEvents t
          from fun _ _ => rfl]; simp [taskEvents]⟩
    | pendingFromStart ts =>
      rw [show ({ s with nextToolCallId := s.nextToolCallId + 1 } : PState).chain =
        s.chain from rfl, hc] at h
      cases h
    | pendingReady ts =>
      rw [show ({ s with nextToolCallId := s.nextToolCallId + 1 } : PState).chain =
        s.chain from rfl, hc] at h
      cases h
      obtain ⟨hev2, _⟩ := runTasks_fields env ts
        { s with nextToolCallId := s.nextToolCallId + 1, chain := ChainState.resolved }
      refine ⟨ts.flatMap taskEvents ++
        [UiEvent.toolCallEvent s.nextToolCallId (effectiveCall env n i).1], ?_⟩
      rw [show ∀ t hs, (runTask env hs t).events = hs.events ++ taskEvents t
        from fun _ _ => rfl, hev2]
      simp [taskEvents]
  · intro n i s hacc
    rw [onTagEnd_accepted_cases hacc false]
    exact ⟨_, rfl, rfl⟩
  · intro c s s' h
    cases c with
    | text t => cases h; exact ⟨[UiEvent.textDelta t], rfl⟩
    | reasoning t => cases h; exact ⟨[UiEvent.reasoningDelta t], rfl⟩
    | errorChunk m => cases h; exact ⟨[UiEvent.errorEvent m], rfl⟩
    | toolCallStructured n i => exact onTagEnd_events_mono h
    | xmlToolCall n i => exact onTagEnd_events_mono h

/-- C9: the first dispatched call of a step sees the chain still in its
initial state (pointing at the stream-done promise).  An inline (XML) call
is then chained on an already resolved promise and runs immediately, its
events appearing before the stream-done mark, while a structured first call
is chained on the stream-done promise and its events appear only after the
stream-done mark at end of stream. -/
theorem first_call_chaining (env : Env) (n : String) (i : ToolInput)
    (hacc : dispatchAccepted env n i = true) :
    (∀ s : PState, s.chain = ChainState.initial →
      onTagEnd env false true n i s =
        some (runTask env { s with nextToolCallId := s.nextToolCallId + 1,
                                   chain := ChainState.resolved }
          { toolCallId := s.nextToolCallId
            toolName := (effectiveCall env n i).1
            input := (effectiveCall env n i).2 })) ∧
    (∀ s : PState, s.chain = ChainState.initial →
      onTagEnd env false false n i s =
        some { s with nextToolCallId := s.nextToolCallId + 1,
                      chain := ChainState.pendingFromStart
                        [{ toolCallId := s.nextToolCallId
                           toolName := (effectiveCall env n i).1
                           input := (effectiveCall env n i).2 }] }) ∧
    (∀ (snapshot : List Message) (fullResponse : String) (res : StreamResult),
      processStream env snapshot fullResponse [Chunk.xmlToolCall n i] none = some res →
      res.events =
        [UiEvent.toolCallEvent 0 (effectiveCall env n i).1,
         UiEvent.toolResultEvent 0 (effectiveCall env n i).1,
         UiEvent.streamDoneMark, UiEvent.commitMark]) ∧
    (∀ (snapshot : List Message) (fullResponse : String) (res : StreamResult),
      processStream env snapshot fullResponse [Chunk.toolCallStructured n i] none = some res →
      res.events =
        [UiEvent.streamDoneMark,
         UiEvent.toolCallEvent 0 (effectiveCall env n i).1,
         UiEvent.toolResultEvent 0 (effectiveCall env n i).1,
         UiEvent.commitMark]) := by
  have hxml : ∀ s : PState, s.chain = ChainState.initial →
      onTagEnd env false true n i s =
        some (runTask env { s with nextToolCallId := s.nextToolCallId + 1,
                                   chain := ChainState.resolved }
          { toolCallId := s.nextToolCallId
            toolName := (effectiveCall env n i).1
            input := (effectiveCall env n i).2 }) := by
    intro s hinit
    rw [onTagEnd]
    simp [hacc, hinit]
  have hstructured : ∀ s : PState, s.chain = ChainState.initial →
      onTagEnd env false false n i s =
        some { s with nextToolCallId := s.nextToolCallId + 1,
                      chain := ChainState.pendingFromStart
                        [{ toolCallId := s.nextToolCallId
                           toolName := (effectiveCall env n i).1
                           input := (effectiveCall env n i).2 }] } := by
    intro s hinit
    rw [onTagEnd]
    simp [hacc, hinit, ChainState.enqueue]
  refine ⟨hxml, hstructured, ?_, ?_⟩
  · intro snapshot fullResponse res h
    obtain ⟨s, hloop', s2, hcase, hhist, hasst, hcalls, hcallsHist, hresults,
      hresultsHist, herrs, hflag, hevents⟩ := processStream_cases h
    have hloop : runLoop env [Chunk.xmlToolCall n i] none (initState fullResponse) =
        some (runTask env
          { nextToolCallId := 1
            toolCalls := []
            toolCallsToAddToMessageHistory := []
            toolResults := []
            toolResultsToAddToMessageHistory := []
            assistantMessages := []
            errorMessages := []
            hadToolCallError := false
            fullResponseChunks := [fullResponse]
            chain := ChainState.resolved
            events := [] }
          { toolCallId := 0
            toolName := (effectiveCall env n i).1
            input := (effectiveCall env n i).2 }) := by
      rw [show ([Chunk.xmlToolCall n i] : List Chunk) = Chunk.xmlToolCall n i :: [] from rfl]
      rw [runLoop, if_neg (by simp : ¬(none : Option Nat) = some 0)]
      rw [show stepChunk env false (Chunk.xmlToolCall n i) (initState fullResponse) =
        onTagEnd env false true n i (initState fullResponse) from rfl]
      rw [hxml (initState fullResponse) rfl]
      rfl
    rw [hloop] at hloop'
    cases hloop'
    rcases hcase with ⟨habt, _⟩ | ⟨_, hs2⟩
    · cases habt
    rw [hevents, hs2]
    rfl
  · intro snapshot fullResponse res h
    obtain ⟨s, hloop', s2, hcase, hhist, hasst, hcalls, hcallsHist, hresults,
      hresultsHist, herrs, hflag, hevents⟩ := processStream_cases h
    have hloop : runLoop env [Chunk.toolCallStructured n i] none (initState fullResponse) =
        some
          { nextToolCallId := 1
            toolCalls := []
            toolCallsToAddToMessageHistory := []
            toolResults := []
            toolResultsToAddToMessageHistory := []
            assistantMessages := []
            errorMessages := []
            hadToolCallError := false
            fullResponseChunks := [fullResponse]
            chain := ChainState.pendingFromStart
              [{ toolCallId := 0
                 toolName := (effectiveCall env n i).1
                 input := (effectiveCall env n i).2 }]
            events := [] } := by
      rw [show ([Chunk.toolCallStructured n i] : List Chunk) =
        Chunk.toolCallStructured n i :: [] from rfl]
      rw [runLoop, if_neg (by simp : ¬(none : Option Nat) = some 0)]
      rw [show stepChunk env false (Chunk.toolCallStructured n i) (initState fullResponse) =
        onTagEnd env false false n i (initState fullResponse) from rfl]
      rw [hstructured (initState fullResponse) rfl]
      rfl
    rw [hloop] at hloop'
    cases hloop'
    rcases hcase with ⟨habt, _⟩ | ⟨_, hs2⟩
    · cases habt
    rw [hevents, hs2]
    rfl

/-- Witness for C1: a concrete run with one text chunk and one accepted
structured tool call, obtained by applying the theorem. -/
theorem processStream_commit_shape_witness :
    processStream sampleEnv [] "" [Chunk.text "ok ",
        Chunk.toolCallStructured "read_files" [("paths", "a.ts")]] none =
      some (psOutput sampleEnv [] "" [Chunk.text "ok ",
        Chunk.toolCallStructured "read_files" [("paths", "a.ts")]] none) ∧
    IPair ((psOutput sampleEnv [] "" [Chunk.text "ok ",
        Chunk.toolCallStructured "read_files" [("paths", "a.ts")]] none).messageHistory.drop
      (List.length ([] : List Message))) ∧
    (psOutput sampleEnv [] "" [Chunk.text "ok ",
        Chunk.toolCallStructured "read_files" [("paths", "a.ts")]] none).messageHistory =
      [] ++ (psOutput sampleEnv [] "" [Chunk.text "ok ",
        Chunk.toolCallStructured "read_files" [("paths", "a.ts")]] none).assistantMessages ++
      (psOutput sampleEnv [] "" [Chunk.text "ok ",
        Chunk.toolCallStructured "read_files" [("paths", "a.ts")]]
          none).toolCallsToAddToMessageHistory.map toolCallMessage ++
      (psOutput sampleEnv [] "" [Chunk.text "ok ",
        Chunk.toolCallStructured "read_files" [("paths", "a.ts")]]
          none).toolResultsToAddToMessageHistory ++
      (psOutput sampleEnv [] "" [Chunk.text "ok ",
        Chunk.toolCallStructured "read_files" [("paths", "a.ts")]] none).errorMessages :=
  ⟨rfl,
   (processStream_commit_shape sampleEnv [] "" [Chunk.text "ok ",
        Chunk.toolCallStructured "read_files" [("paths", "a.ts")]] (psOutput sampleEnv [] "" [Chunk.text "ok ",
        Chunk.toolCallStructured "read_files" [("paths", "a.ts")]] none) rfl).2.2.2.2.2.1,
   (processStream_commit_shape sampleEnv [] "" [Chunk.text "ok ",
        Chunk.toolCallStructured "read_files" [("paths", "a.ts")]] (psOutput sampleEnv [] "" [Chunk.text "ok ",
        Chunk.toolCallStructured "read_files" [("paths", "a.ts")]] none) rfl).1⟩

/-- Witness for C2: a concrete run with two structured tool calls, obtained
by applying the theorem. -/
theorem toolEvents_serialized_witness :
    processStream sampleEnv [] ""
        [Chunk.toolCallStructured "read_files" [("paths", "a.ts")],
         Chunk.toolCallStructured "end_turn" []] none =
      some (psOutput sampleEnv [] ""
        [Chunk.toolCallStructured "read_files" [("paths", "a.ts")],
         Chunk.toolCallStructured "end_turn" []] none) ∧
    toolEvents (psOutput sampleEnv [] ""
        [Chunk.toolCallStructured "read_files" [("paths", "a.ts")],
         Chunk.toolCallStructured "end_turn" []] none).events =
      (psOutput sampleEnv [] ""
        [Chunk.toolCallStructured "read_files" [("paths", "a.ts")],
         Chunk.toolCallStructured "end_turn" []] none).toolCalls.flatMap taskEvents :=
  ⟨rfl, (toolEvents_serialized sampleEnv [] "" [Chunk.toolCallStructured "read_files" [("paths", "a.ts")],
         Chunk.toolCallStructured "end_turn" []] none (psOutput sampleEnv [] ""
        [Chunk.toolCallStructured "read_files" [("paths", "a.ts")],
         Chunk.toolCallStructured "end_turn" []] none) rfl).1⟩

/-- Witness for C3: a schema-invalid `spawn_agents` call surrounded by text,
obtained by applying the theorem. -/
theorem dispatch_error_isolated_witness :
    dispatchAccepted sampleEnv "spawn_agents" [("bad", "yes")] = false ∧
    (psOutput sampleEnv [] ""
        (["hello"].map Chunk.text ++
          ((if false then Chunk.xmlToolCall "spawn_agents" [("bad", "yes")]
            else Chunk.toolCallStructured "spawn_agents" [("bad", "yes")]) ::
            ([] : List String).map Chunk.text)) none).hadToolCallError = true ∧
    errorEvents (psOutput sampleEnv [] ""
        (["hello"].map Chunk.text ++
          ((if false then Chunk.xmlToolCall "spawn_agents" [("bad", "yes")]
            else Chunk.toolCallStructured "spawn_agents" [("bad", "yes")]) ::
            ([] : List String).map Chunk.text)) none).events =
      [UiEvent.errorEvent (dispatchErrorMessage sampleEnv "spawn_agents" [("bad", "yes")])] ∧
    toolEvents (psOutput sampleEnv [] ""
        (["hello"].map Chunk.text ++
          ((if false then Chunk.xmlToolCall "spawn_agents" [("bad", "yes")]
            else Chunk.toolCallStructured "spawn_agents" [("bad", "yes")]) ::
            ([] : List String).map Chunk.text)) none).events = [] :=
  ⟨by decide,
   (dispatch_error_isolated sampleEnv [] "" ["hello"] [] false "spawn_agents"
      [("bad", "yes")] (psOutput sampleEnv [] ""
        (["hello"].map Chunk.text ++
          ((if false then Chunk.xmlToolCall "spawn_agents" [("bad", "yes")]
            else Chunk.toolCallStructured "spawn_agents" [("bad", "yes")]) ::
            ([] : List String).map Chunk.text)) none) (by decide) rfl).2.2.2.2.2.2.1,
   (dispatch_error_isolated sampleEnv [] "" ["hello"] [] false "spawn_agents"
      [("bad", "yes")] (psOutput sampleEnv [] ""
        (["hello"].map Chunk.text ++
          ((if false then Chunk.xmlToolCall "spawn_agents" [("bad", "yes")]
            else Chunk.toolCallStructured "spawn_agents" [("bad", "yes")]) ::
            ([] : List String).map Chunk.text)) none) (by decide) rfl).1,
   (dispatch_error_isolated sampleEnv [] "" ["hello"] [] false "spawn_agents"
      [("bad", "yes")] (psOutput sampleEnv [] ""
        (["hello"].map Chunk.text ++
          ((if false then Chunk.xmlToolCall "spawn_agents" [("bad", "yes")]
            else Chunk.toolCallStructured "spawn_agents" [("bad", "yes")]) ::
            ([] : List String).map Chunk.text)) none) (by decide) rfl).2.1⟩

/-- Witness for C6: aborting after the first of two inline calls keeps
exactly the first call's records, obtained by applying the theorem. -/
theorem abort_stops_dispatch_witness :
    ∃ s, runLoop sampleEnv
        [Chunk.xmlToolCall "read_files" [("paths", "a.ts")],
         Chunk.xmlToolCall "end_turn" []] (some 1) (initState "") = some s ∧
      (psOutput sampleEnv [] ""
        [Chunk.xmlToolCall "read_files" [("paths", "a.ts")],
         Chunk.xmlToolCall "end_turn" []] (some 1)).toolCalls = s.toolCalls ∧
      (psOutput sampleEnv [] ""
        [Chunk.xmlToolCall "read_files" [("paths", "a.ts")],
         Chunk.xmlToolCall "end_turn" []] (some 1)).toolCallsToAddToMessageHistory =
        s.toolCallsToAddToMessageHistory ∧
      (psOutput sampleEnv [] ""
        [Chunk.xmlToolCall "read_files" [("paths", "a.ts")],
         Chunk.xmlToolCall "end_turn" []] (some 1)).toolResults = s.toolResults ∧
      (psOutput sampleEnv [] ""
        [Chunk.xmlToolCall "read_files" [("paths", "a.ts")],
         Chunk.xmlToolCall "end_turn" []] (some 1)).toolResultsToAddToMessageHistory =
        s.toolResultsToAddToMessageHistory ∧
      (psOutput sampleEnv [] ""
        [Chunk.xmlToolCall "read_files" [("paths", "a.ts")],
         Chunk.xmlToolCall "end_turn" []] (some 1)).errorMessages = s.errorMessages ∧
      (psOutput sampleEnv [] ""
        [Chunk.xmlToolCall "read_files" [("paths", "a.ts")],
         Chunk.xmlToolCall "end_turn" []] (some 1)).messageHistory =
        commitHistory [] s :=
  (abort_stops_dispatch sampleEnv).2.2.2 [] ""
    [Chunk.xmlToolCall "read_files" [("paths", "a.ts")],
     Chunk.xmlToolCall "end_turn" []] 1
    (psOutput sampleEnv [] ""
      [Chunk.xmlToolCall "read_files" [("paths", "a.ts")],
       Chunk.xmlToolCall "end_turn" []] (some 1)) (by decide) rfl

/-- Witness for C7: a structured dispatch emits nothing, obtained by
applying the theorem. -/
theorem xml_dispatch_awaited_witness :
    (∃ s', onTagEnd sampleEnv false false "read_files" [("paths", "a.ts")]
        (initState "") = some s' ∧ s'.events = (initState "").events) ∧
    (∃ δ, ((onTagEnd sampleEnv false true "read_files" [("paths", "a.ts")]
        (initState "")).getD (initState "")).events =
      (initState "").events ++ δ ++
        [UiEvent.toolResultEvent (initState "").nextToolCallId
          (effectiveCall sampleEnv "read_files" [("paths", "a.ts")]).1]) :=
  ⟨(xml_dispatch_awaited sampleEnv).2.1 "read_files" [("paths", "a.ts")]
      (initState "") (by decide),
   (xml_dispatch_awaited sampleEnv).1 "read_files" [("paths", "a.ts")]
      (initState "") ((onTagEnd sampleEnv false true "read_files" [("paths", "a.ts")]
        (initState "")).getD (initState "")) (by decide) rfl⟩

/-- Witness for C9: on a single-chunk stream the inline call's events come
before the stream-done mark and the structured call's events after it,
obtained by applying the theorem. -/
theorem first_call_chaining_witness :
    (psOutput sampleEnv [] ""
        [Chunk.xmlToolCall "read_files" [("paths", "a.ts")]] none).events =
      [UiEvent.toolCallEvent 0 (effectiveCall sampleEnv "read_files" [("paths", "a.ts")]).1,
       UiEvent.toolResultEvent 0 (effectiveCall sampleEnv "read_files" [("paths", "a.ts")]).1,
       UiEvent.streamDoneMark, UiEvent.commitMark] ∧
    (psOutput sampleEnv [] ""
        [Chunk.toolCallStructured "read_files" [("paths", "a.ts")]] none).events =
      [UiEvent.streamDoneMark,
       UiEvent.toolCallEvent 0 (effectiveCall sampleEnv "read_files" [("paths", "a.ts")]).1,
       UiEvent.toolResultEvent 0 (effectiveCall sampleEnv "read_files" [("paths", "a.ts")]).1,
       UiEvent.commitMark] :=
  ⟨(first_call_chaining sampleEnv "read_files" [("paths", "a.ts")] (by decide)).2.2.1
      [] "" (psOutput sampleEnv [] ""
        [Chunk.xmlToolCall "read_files" [("paths", "a.ts")]] none) rfl,
   (first_call_chaining sampleEnv "read_files" [("paths", "a.ts")] (by decide)).2.2.2
      [] "" (psOutput sampleEnv [] ""
        [Chunk.toolCallStructured "read_files" [("paths", "a.ts")]] none) rfl⟩
